import Mathlib

/-!
Verification of the `tf_solver` RPN search pipeline.

The Rust sources are embedded shallowly: `f64` values are modelled as `ℚ`
(the claims only exercise exact small-integer arithmetic; the NaN behaviour
of the tolerance filter gets its own explicit model `F = Option ℚ` with
`none` playing NaN), iterators become lists, and panics become `Except`
errors or `Option.none`.
-/

namespace TfSolver

/-- Embeds `types.rs` `Operand`: a display symbol together with its numeric value. -/
structure Operand where
  symbol : String
  value : ℚ

/-- Embeds `types.rs` `UnaryOperator = Operator<fn(f64) -> f64>`. -/
structure UnaryOperator where
  symbol : String
  function : ℚ → ℚ

/-- Embeds `types.rs` `BinaryOperator = Operator<fn(f64, f64) -> f64>`. -/
structure BinaryOperator where
  symbol : String
  function : ℚ → ℚ → ℚ

/-- Embeds `types.rs` `Token`: tagged union over operand / unary / binary. -/
inductive Token where
  | Operand : Operand → Token
  | UnaryOperator : UnaryOperator → Token
  | BinaryOperator : BinaryOperator → Token

/-- Loop body of `rpn.rs` `is_valid_rpn`: the `for token in tokens` loop over a
running `stack_size : isize`, with the early `return false` branches and the
defensive `stack_size < 0` re-check after each token, ending in
`stack_size == 1`. -/
def is_valid_rpn_go : Int → List Token → Bool
  | stack_size, [] => stack_size == 1
  | stack_size, Token.Operand _ :: rest =>
    if stack_size + 1 < 0 then false else is_valid_rpn_go (stack_size + 1) rest
  | stack_size, Token.UnaryOperator _ :: rest =>
    if stack_size < 1 then false
    else if stack_size < 0 then false else is_valid_rpn_go stack_size rest
  | stack_size, Token.BinaryOperator _ :: rest =>
    if stack_size < 2 then false
    else if stack_size - 1 < 0 then false else is_valid_rpn_go (stack_size - 1) rest

/-- Embeds `rpn.rs` `is_valid_rpn`: empty sequences are invalid, otherwise the
counter simulation starting from 0 must succeed and end at 1. -/
def is_valid_rpn (tokens : List Token) : Bool :=
  if tokens.isEmpty then false else is_valid_rpn_go 0 tokens

/-- Spec-side counter simulation (§3 stack-balance invariant): operand adds one,
a unary operator requires the counter to be at least 1 and keeps it, a binary
operator requires at least 2 and subtracts one; a failed requirement aborts the
simulation (`none`). -/
def rpnCount : Int → List Token → Option Int
  | s, [] => some s
  | s, Token.Operand _ :: rest => rpnCount (s + 1) rest
  | s, Token.UnaryOperator _ :: rest => if 1 ≤ s then rpnCount s rest else none
  | s, Token.BinaryOperator _ :: rest => if 2 ≤ s then rpnCount (s - 1) rest else none

theorem rpnCount_append (l₁ l₂ : List Token) : ∀ s : Int,
    rpnCount s (l₁ ++ l₂) = (rpnCount s l₁).bind (fun t => rpnCount t l₂) := by
  induction l₁ with
  | nil => intro s; simp [rpnCount]
  | cons tok rest ih =>
    intro s
    cases tok with
    | Operand op => simpa [rpnCount] using ih (s + 1)
    | UnaryOperator uop =>
      by_cases h : 1 ≤ s
      · simpa [rpnCount, h] using ih s
      · simp [rpnCount, h]
    | BinaryOperator bop =>
      by_cases h : 2 ≤ s
      · simpa [rpnCount, h] using ih (s - 1)
      · simp [rpnCount, h]

theorem rpnCount_nonneg (l : List Token) : ∀ s t : Int,
    0 ≤ s → rpnCount s l = some t → 0 ≤ t := by
  induction l with
  | nil => intro s t hs h; simp [rpnCount] at h; omega
  | cons tok rest ih =>
    intro s t hs h
    cases tok with
    | Operand op => exact ih (s + 1) t (by omega) h
    | UnaryOperator uop =>
      by_cases h1 : 1 ≤ s
      · simp [rpnCount, h1] at h; exact ih s t hs h
      · simp [rpnCount, h1] at h
    | BinaryOperator bop =>
      by_cases h2 : 2 ≤ s
      · simp [rpnCount, h2] at h; exact ih (s - 1) t (by omega) h
      · simp [rpnCount, h2] at h

theorem is_valid_rpn_go_iff (l : List Token) : ∀ s : Int, 0 ≤ s →
    (is_valid_rpn_go s l = true ↔ rpnCount s l = some 1) := by
  induction l with
  | nil => intro s _; simp [is_valid_rpn_go, rpnCount]
  | cons tok rest ih =>
    intro s hs
    cases tok with
    | Operand op =>
      have hneg : ¬ s + 1 < 0 := by omega
      simpa [is_valid_rpn_go, rpnCount, hneg] using ih (s + 1) (by omega)
    | UnaryOperator uop =>
      by_cases h1 : s < 1
      · simp [is_valid_rpn_go, rpnCount, h1, show ¬ (1 : Int) ≤ s by omega]
      · have : ¬ s < 0 := by omega
        simpa [is_valid_rpn_go, rpnCount, h1, this, show (1 : Int) ≤ s by omega]
          using ih s hs
    | BinaryOperator bop =>
      by_cases h2 : s < 2
      · simp [is_valid_rpn_go, rpnCount, h2, show ¬ (2 : Int) ≤ s by omega]
      · have hneg : ¬ s - 1 < 0 := by omega
        simpa [is_valid_rpn_go, rpnCount, h2, hneg, show (2 : Int) ≤ s by omega]
          using ih (s - 1) (by omega)

theorem is_valid_rpn_iff (l : List Token) :
    is_valid_rpn l = true ↔ l ≠ [] ∧ rpnCount 0 l = some 1 := by
  cases l with
  | nil => simp [is_valid_rpn]
  | cons tok rest =>
    rw [is_valid_rpn]
    simpa using is_valid_rpn_go_iff (tok :: rest) 0 (by omega)

/-- Loop body of `rpn.rs` `calculate`: the `for token in tokens` loop over the
`Vec`-simulated stack (head of the list is the top of the stack).  An operand
pushes its value; a unary operator pops one value and pushes `f(x)`; a binary
operator pops `right` then `left` and pushes `f(left, right)`.  A pop from an
empty stack is the Rust `unwrap` panic, modelled as `none`. -/
def calcLoop : List Token → List ℚ → Option (List ℚ)
  | [], stack => some stack
  | Token.Operand operand :: rest, stack => calcLoop rest (operand.value :: stack)
  | Token.UnaryOperator operator :: rest, stack =>
    match stack with
    | value :: stack => calcLoop rest (operator.function value :: stack)
    | [] => none
  | Token.BinaryOperator operator :: rest, stack =>
    match stack with
    | right :: left :: stack => calcLoop rest (operator.function left right :: stack)
    | _ => none

/-- Embeds `rpn.rs` `calculate`: first the
`assert!(is_valid_rpn(tokens), "Invalid RPN sequence passed to calculate")`
(a failed assert is the `Except.error` carrying the assert message), then the
stack-machine loop, then the final `stack.pop().unwrap()` (an `unwrap` panic is
the other `Except.error`). -/
def calculate (tokens : List Token) : Except String ℚ :=
  if is_valid_rpn tokens then
    match calcLoop tokens [] with
    | some (value :: _) => Except.ok value
    | _ => Except.error "called Option::unwrap on a None value"
  else Except.error "Invalid RPN sequence passed to calculate"

theorem calcLoop_total (l : List Token) : ∀ (s : Int) (stack : List ℚ),
    (stack.length : Int) = s → is_valid_rpn_go s l = true →
    ∃ v : ℚ, calcLoop l stack = some [v] := by
  induction l with
  | nil =>
    intro s stack hlen h
    simp [is_valid_rpn_go] at h
    subst h
    match stack, hlen with
    | [v], _ => exact ⟨v, rfl⟩
  | cons tok rest ih =>
    intro s stack hlen h
    cases tok with
    | Operand op =>
      rw [is_valid_rpn_go] at h
      rw [if_neg (by omega)] at h
      exact ih (s + 1) (op.value :: stack) (by simp [hlen]) h
    | UnaryOperator uop =>
      rw [is_valid_rpn_go] at h
      by_cases h1 : s < 1
      · rw [if_pos h1] at h; exact absurd h (by simp)
      · rw [if_neg h1, if_neg (by omega)] at h
        match stack, hlen with
        | value :: stack, hlen =>
          exact ih s (uop.function value :: stack) (by simpa using hlen) h
        | [], hlen => simp at hlen; omega
    | BinaryOperator bop =>
      rw [is_valid_rpn_go] at h
      by_cases h2 : s < 2
      · rw [if_pos h2] at h; exact absurd h (by simp)
      · rw [if_neg h2, if_neg (by omega)] at h
        match stack, hlen with
        | right :: left :: stack, hlen =>
          refine ih (s - 1) (bop.function left right :: stack) ?_ h
          simp at hlen ⊢
          omega
        | [], hlen => simp at hlen; omega
        | [x], hlen => simp at hlen; omega

theorem calculate_ok_of_valid (l : List Token) (h : is_valid_rpn l = true) :
    ∃ v : ℚ, calcLoop l [] = some [v] ∧ calculate l = Except.ok v := by
  have hgo : is_valid_rpn_go 0 l = true := by
    rw [is_valid_rpn] at h
    cases l with
    | nil => simp at h
    | cons tok rest => simpa using h
  obtain ⟨v, hv⟩ := calcLoop_total l 0 [] (by simp) hgo
  exact ⟨v, hv, by rw [calculate, if_pos h, hv]⟩

/-- Sample operand of value 1 used for the concrete test inputs. -/
def sampleOperand : Operand := ⟨"1", 1⟩

/-- Sample binary addition operator used for the concrete test inputs. -/
def plusOp : BinaryOperator := ⟨"+", fun a b => a + b⟩

/-- C4: `is_valid_rpn` returns true exactly on the non-empty sequences whose
left-to-right counter simulation (operand +1; unary requires ≥ 1, unchanged;
binary requires ≥ 2, −1) succeeds and ends at 1; every prefix of a valid
sequence simulates to a non-negative counter (the counter never goes
negative); the empty sequence and `[operand, binary_op]` are invalid. -/
theorem is_valid_rpn_characterization :
    (∀ l : List Token, is_valid_rpn l = true ↔ l ≠ [] ∧ rpnCount 0 l = some 1)
    ∧ (∀ l₁ l₂ : List Token, is_valid_rpn (l₁ ++ l₂) = true →
        ∃ s : Int, rpnCount 0 l₁ = some s ∧ 0 ≤ s)
    ∧ is_valid_rpn [] = false
    ∧ is_valid_rpn [Token.Operand sampleOperand, Token.BinaryOperator plusOp] = false := by
  refine ⟨is_valid_rpn_iff, ?_, by simp [is_valid_rpn], by decide⟩
  intro l₁ l₂ h
  have h2 := ((is_valid_rpn_iff (l₁ ++ l₂)).mp h).2
  rw [rpnCount_append] at h2
  cases hc : rpnCount 0 l₁ with
  | none => rw [hc] at h2; simp at h2
  | some s => exact ⟨s, rfl, rpnCount_nonneg l₁ 0 s (by omega) hc⟩

/-- Witness for `is_valid_rpn_characterization` at the concrete sequence
`[1, 1, +]`. -/
theorem is_valid_rpn_characterization_witness :
    is_valid_rpn [Token.Operand sampleOperand, Token.Operand sampleOperand,
      Token.BinaryOperator plusOp] = true :=
  (is_valid_rpn_characterization.1 _).mpr ⟨by simp, by decide⟩

/-- Sample unary squaring operator from the spec example `[1.0, 2.0, square, +]`. -/
def squareOp : UnaryOperator := ⟨"square", fun a => a * a⟩

/-- Sample binary multiplication operator from the spec example
`[2.0, 3.0, +, 4.0, *]`. -/
def timesOp : BinaryOperator := ⟨"*", fun a b => a * b⟩

/-- Spec example sequence `[1.0, 2.0, square, +]`. -/
def exampleSquare : List Token :=
  [Token.Operand ⟨"1.0", 1⟩, Token.Operand ⟨"2.0", 2⟩,
   Token.UnaryOperator squareOp, Token.BinaryOperator plusOp]

/-- Spec example sequence `[2.0, 3.0, +, 4.0, *]`. -/
def exampleTimes : List Token :=
  [Token.Operand ⟨"2.0", 2⟩, Token.Operand ⟨"3.0", 3⟩, Token.BinaryOperator plusOp,
   Token.Operand ⟨"4.0", 4⟩, Token.BinaryOperator timesOp]

/-- C2: on every sequence accepted by `is_valid_rpn`, the stack-machine loop of
`calculate` (operand pushes its value, unary pops one value and pushes `f(x)`,
binary pops right then left and pushes `f(left, right)`) terminates with
exactly one value on the stack and `calculate` returns it; on the spec's
examples it returns `square(2)+1 = 5` and `(2+3)*4 = 20`. -/
theorem calculate_stack_machine :
    (∀ l : List Token, is_valid_rpn l = true →
      ∃ v : ℚ, calcLoop l [] = some [v] ∧ calculate l = Except.ok v)
    ∧ calculate exampleSquare = Except.ok 5
    ∧ calculate exampleTimes = Except.ok 20 := by
  refine ⟨calculate_ok_of_valid, ?_, ?_⟩
  · rw [calculate, if_pos (by decide : is_valid_rpn exampleSquare = true)]
    norm_num [calcLoop, exampleSquare, squareOp, plusOp]
  · rw [calculate, if_pos (by decide : is_valid_rpn exampleTimes = true)]
    norm_num [calcLoop, exampleTimes, timesOp, plusOp]

/-- Witness for `calculate_stack_machine` at the concrete sequence
`[1.0, 2.0, square, +]`. -/
theorem calculate_stack_machine_witness :
    ∃ v : ℚ, calcLoop exampleSquare [] = some [v]
      ∧ calculate exampleSquare = Except.ok v :=
  calculate_stack_machine.1 exampleSquare (by decide)

/-- C7: `calculate` on a sequence rejected by `is_valid_rpn` fails its leading
assert and returns the designated invalid-expression error without running the
stack loop; it never returns a computed value for an invalid sequence; in
particular `[operand, binary_op]` is rejected. -/
theorem calculate_rejects_invalid :
    (∀ l : List Token, is_valid_rpn l = false →
      calculate l = Except.error "Invalid RPN sequence passed to calculate")
    ∧ (∀ (l : List Token) (v : ℚ), calculate l = Except.ok v → is_valid_rpn l = true)
    ∧ calculate [Token.Operand sampleOperand, Token.BinaryOperator plusOp]
        = Except.error "Invalid RPN sequence passed to calculate" := by
  refine ⟨fun l h => by rw [calculate, h]; rfl, fun l v h => ?_, by rfl⟩
  by_cases hv : is_valid_rpn l
  · exact hv
  · rw [calculate, if_neg hv] at h
    exact absurd h (by simp)

/-- Witness for `calculate_rejects_invalid` at the empty sequence. -/
theorem calculate_rejects_invalid_witness :
    calculate [] = Except.error "Invalid RPN sequence passed to calculate" :=
  calculate_rejects_invalid.1 [] (by decide)

/-- Tests whether a token is an operand. -/
def isOperandTok : Token → Bool
  | Token.Operand _ => true
  | _ => false

/-- Tests whether a token is a unary operator. -/
def isUnaryTok : Token → Bool
  | Token.UnaryOperator _ => true
  | _ => false

/-- Tests whether a token is a binary operator. -/
def isBinaryTok : Token → Bool
  | Token.BinaryOperator _ => true
  | _ => false

/-- Number of operand tokens in a sequence. -/
def countOperand (l : List Token) : Nat := l.countP isOperandTok

/-- Number of unary-operator tokens in a sequence. -/
def countUnary (l : List Token) : Nat := l.countP isUnaryTok

/-- Number of binary-operator tokens in a sequence. -/
def countBinary (l : List Token) : Nat := l.countP isBinaryTok

/-- Embeds `aux_generate` (identical in `generator.rs` and `main.rs`): the
recursive backtracking enumerator over the three remaining-token quotas and the
running stack size.  The three branch guards and the branch order
(operands, then unary, then binary, each in vocabulary order) follow the
source; the returned list is the emission order of the chained iterators. -/
def aux_generate (operands : List Operand) (unary_operators : List UnaryOperator)
    (binary_operators : List BinaryOperator)
    (operands_needed unary_ops_needed binary_ops_needed : Nat)
    (current_sequence : List Token) (stack_size : Nat) : List (List Token) :=
  if operands_needed == 0 && unary_ops_needed == 0 && binary_ops_needed == 0 then
    if stack_size == 1 then [current_sequence] else []
  else
    (if _h : 0 < operands_needed ∧ operands.isEmpty = false then
      operands.flatMap (fun op =>
        aux_generate operands unary_operators binary_operators
          (operands_needed - 1) unary_ops_needed binary_ops_needed
          (current_sequence ++ [Token.Operand op]) (stack_size + 1))
    else [])
    ++ (if _h : 0 < unary_ops_needed ∧ 1 ≤ stack_size ∧ unary_operators.isEmpty = false then
      unary_operators.flatMap (fun uop =>
        aux_generate operands unary_operators binary_operators
          operands_needed (unary_ops_needed - 1) binary_ops_needed
          (current_sequence ++ [Token.UnaryOperator uop]) stack_size)
    else [])
    ++ (if _h : 0 < binary_ops_needed ∧ 2 ≤ stack_size ∧ binary_operators.isEmpty = false then
      binary_operators.flatMap (fun bop =>
        aux_generate operands unary_operators binary_operators
          operands_needed unary_ops_needed (binary_ops_needed - 1)
          (current_sequence ++ [Token.BinaryOperator bop]) (stack_size - 1))
    else [])
termination_by operands_needed + unary_ops_needed + binary_ops_needed
decreasing_by all_goals omega

theorem rpnCount_push_operand (cur : List Token) (op : Operand) (s : Int)
    (h : rpnCount 0 cur = some s) :
    rpnCount 0 (cur ++ [Token.Operand op]) = some (s + 1) := by
  rw [rpnCount_append, h]; simp [rpnCount]

theorem rpnCount_push_unary (cur : List Token) (uop : UnaryOperator) (s : Int)
    (h : rpnCount 0 cur = some s) (hs : 1 ≤ s) :
    rpnCount 0 (cur ++ [Token.UnaryOperator uop]) = some s := by
  rw [rpnCount_append, h]; simp [rpnCount, hs]

theorem rpnCount_push_binary (cur : List Token) (bop : BinaryOperator) (s : Int)
    (h : rpnCount 0 cur = some s) (hs : 2 ≤ s) :
    rpnCount 0 (cur ++ [Token.BinaryOperator bop]) = some (s - 1) := by
  rw [rpnCount_append, h]; simp [rpnCount, hs]

theorem aux_generate_spec (O : List Operand) (U : List UnaryOperator)
    (B : List BinaryOperator) :
    ∀ (n operands_needed unary_ops_needed binary_ops_needed : Nat)
      (cur : List Token) (stack : Nat),
      operands_needed + unary_ops_needed + binary_ops_needed ≤ n →
      ∀ seq ∈ aux_generate O U B operands_needed unary_ops_needed binary_ops_needed
        cur stack,
        countOperand seq = countOperand cur + operands_needed
        ∧ countUnary seq = countUnary cur + unary_ops_needed
        ∧ countBinary seq = countBinary cur + binary_ops_needed
        ∧ (rpnCount 0 cur = some (stack : Int) → rpnCount 0 seq = some 1) := by
  intro n
  induction n with
  | zero =>
    intro opn un bn cur stack hle seq hseq
    have h0 : opn = 0 ∧ un = 0 ∧ bn = 0 := by omega
    obtain ⟨rfl, rfl, rfl⟩ := h0
    rw [aux_generate] at hseq
    simp only [beq_self_eq_true, Bool.and_self, if_true] at hseq
    by_cases hst : stack = 1
    · subst hst
      simp at hseq
      subst hseq
      refine ⟨by omega, by omega, by omega, fun h => by simpa using h⟩
    · simp [hst] at hseq
  | succ n ih =>
    intro opn un bn cur stack hle seq hseq
    by_cases h0 : opn = 0 ∧ un = 0 ∧ bn = 0
    · obtain ⟨rfl, rfl, rfl⟩ := h0
      rw [aux_generate] at hseq
      simp only [beq_self_eq_true, Bool.and_self, if_true] at hseq
      by_cases hst : stack = 1
      · subst hst
        simp at hseq
        subst hseq
        refine ⟨by omega, by omega, by omega, fun h => by simpa using h⟩
      · simp [hst] at hseq
    · rw [aux_generate] at hseq
      have hcond : (opn == 0 && un == 0 && bn == 0) = false := by
        simp only [Bool.and_eq_false_iff, beq_eq_false_iff_ne]
        omega
      rw [hcond] at hseq
      simp only [Bool.false_eq_true, if_false, List.append_assoc, List.mem_append]
        at hseq
      rcases hseq with hseq | hseq | hseq
      · by_cases hg : 0 < opn ∧ O.isEmpty = false
        · rw [dif_pos hg] at hseq
          obtain ⟨op, _, hseq⟩ := List.mem_flatMap.mp hseq
          obtain ⟨c1, c2, c3, c4⟩ := ih (opn - 1) un bn
            (cur ++ [Token.Operand op]) (stack + 1) (by omega) seq hseq
          refine ⟨?_, ?_, ?_, fun h => ?_⟩
          · rw [c1]
            simp [countOperand, List.countP_append, List.countP_cons, isOperandTok]
            omega
          · rw [c2]
            simp [countUnary, List.countP_append, List.countP_cons, isUnaryTok]
          · rw [c3]
            simp [countBinary, List.countP_append, List.countP_cons, isBinaryTok]
          · refine c4 ?_
            rw [rpnCount_push_operand cur op (stack : Int) h]
            norm_num
        · rw [dif_neg hg] at hseq
          simp at hseq
      · by_cases hg : 0 < un ∧ 1 ≤ stack ∧ U.isEmpty = false
        · rw [dif_pos hg] at hseq
          obtain ⟨uop, _, hseq⟩ := List.mem_flatMap.mp hseq
          obtain ⟨c1, c2, c3, c4⟩ := ih opn (un - 1) bn
            (cur ++ [Token.UnaryOperator uop]) stack (by omega) seq hseq
          refine ⟨?_, ?_, ?_, fun h => ?_⟩
          · rw [c1]
            simp [countOperand, List.countP_append, List.countP_cons, isOperandTok]
          · rw [c2]
            simp [countUnary, List.countP_append, List.countP_cons, isUnaryTok]
            omega
          · rw [c3]
            simp [countBinary, List.countP_append, List.countP_cons, isBinaryTok]
          · refine c4 ?_
            refine rpnCount_push_unary cur uop (stack : Int) h ?_
            exact_mod_cast hg.2.1
        · rw [dif_neg hg] at hseq
          simp at hseq
      · by_cases hg : 0 < bn ∧ 2 ≤ stack ∧ B.isEmpty = false
        · rw [dif_pos hg] at hseq
          obtain ⟨bop, _, hseq⟩ := List.mem_flatMap.mp hseq
          obtain ⟨c1, c2, c3, c4⟩ := ih opn un (bn - 1)
            (cur ++ [Token.BinaryOperator bop]) (stack - 1) (by omega) seq hseq
          refine ⟨?_, ?_, ?_, fun h => ?_⟩
          · rw [c1]
            simp [countOperand, List.countP_append, List.countP_cons, isOperandTok]
          · rw [c2]
            simp [countUnary, List.countP_append, List.countP_cons, isUnaryTok]
          · rw [c3]
            simp [countBinary, List.countP_append, List.countP_cons, isBinaryTok]
            omega
          · refine c4 ?_
            rw [rpnCount_push_binary cur bop (stack : Int) h
              (by exact_mod_cast hg.2.1)]
            have : ((stack : Int)) - 1 = ((stack - 1 : Nat) : Int) := by
              have := hg.2.1
              omega
            rw [this]
        · rw [dif_neg hg] at hseq
          simp at hseq

/-- Embeds `main.rs` `generate_valid_tokens_with_depth`: for each
`unary_ops_needed` in `0..depth` it runs `aux_generate` with
`operands_needed = depth - unary_ops_needed` operands and
`binary_ops_needed = operands_needed - 1` binary operators. -/
def generate_valid_tokens_with_depth (operands : List Operand)
    (unary_operators : List UnaryOperator) (binary_operators : List BinaryOperator)
    (depth : Nat) : List (List Token) :=
  if depth == 0 then []
  else
    (List.range depth).flatMap (fun unary_ops_needed =>
      aux_generate operands unary_operators binary_operators
        (depth - unary_ops_needed) unary_ops_needed (depth - unary_ops_needed - 1)
        [] 0)

/-- Embeds `generator.rs` `generate_valid_tokens_with_depth`: it always demands
`num_operands = depth` operands and `num_binary_ops = depth - 1` binary
operators, and lets the unary count range over `0..=max_unary_ops` with
`max_unary_ops = depth`. -/
def generate_valid_tokens_with_depth_lib (operands : List Operand)
    (unary_operators : List UnaryOperator) (binary_operators : List BinaryOperator)
    (depth : Nat) : List (List Token) :=
  if depth == 0 then []
  else
    (List.range (depth + 1)).flatMap (fun num_unary_ops =>
      aux_generate operands unary_operators binary_operators
        depth num_unary_ops (depth - 1) [] 0)

/-- Embeds `main.rs` `generate_valid_tokens`: flat-maps
`generate_valid_tokens_with_depth` over the depths `1..=max_depth`. -/
def generate_valid_tokens (operands : List Operand)
    (unary_operators : List UnaryOperator) (binary_operators : List BinaryOperator)
    (max_depth : Nat) : List (List Token) :=
  (List.range max_depth).flatMap (fun i =>
    generate_valid_tokens_with_depth operands unary_operators binary_operators (i + 1))

/-- Embeds `generator.rs` `generate_valid_tokens`, built on the `generator.rs`
variant of `generate_valid_tokens_with_depth`. -/
def generate_valid_tokens_lib (operands : List Operand)
    (unary_operators : List UnaryOperator) (binary_operators : List BinaryOperator)
    (max_depth : Nat) : List (List Token) :=
  (List.range max_depth).flatMap (fun i =>
    generate_valid_tokens_with_depth_lib operands unary_operators binary_operators (i + 1))

theorem valid_of_mem_aux (O : List Operand) (U : List UnaryOperator)
    (B : List BinaryOperator) (a b c : Nat) (seq : List Token)
    (h : seq ∈ aux_generate O U B a b c [] 0) : is_valid_rpn seq = true := by
  obtain ⟨-, -, -, hv⟩ :=
    aux_generate_spec O U B (a + b + c) a b c [] 0 (le_refl _) seq h
  have h1 : rpnCount 0 seq = some 1 := hv (by simp [rpnCount])
  rw [is_valid_rpn_iff]
  refine ⟨?_, h1⟩
  intro hnil
  subst hnil
  simp [rpnCount] at h1

/-- C1: every token sequence yielded by `generate_valid_tokens` — both the
`main.rs` variant and the `generator.rs` variant — satisfies `is_valid_rpn`,
for every vocabulary and every `max_depth`; validity is by construction of the
backtracking `aux_generate` (no post-hoc filter appears in the definitions). -/
theorem generator_output_valid :
    ∀ (O : List Operand) (U : List UnaryOperator) (B : List BinaryOperator)
      (max_depth : Nat) (seq : List Token),
      (seq ∈ generate_valid_tokens O U B max_depth → is_valid_rpn seq = true)
      ∧ (seq ∈ generate_valid_tokens_lib O U B max_depth → is_valid_rpn seq = true) := by
  intro O U B max_depth seq
  constructor
  · intro h
    rw [generate_valid_tokens] at h
    obtain ⟨i, -, h⟩ := List.mem_flatMap.mp h
    rw [generate_valid_tokens_with_depth] at h
    rw [if_neg (by simp)] at h
    obtain ⟨u, -, h⟩ := List.mem_flatMap.mp h
    exact valid_of_mem_aux O U B _ _ _ seq h
  · intro h
    rw [generate_valid_tokens_lib] at h
    obtain ⟨i, -, h⟩ := List.mem_flatMap.mp h
    rw [generate_valid_tokens_with_depth_lib] at h
    rw [if_neg (by simp)] at h
    obtain ⟨u, -, h⟩ := List.mem_flatMap.mp h
    exact valid_of_mem_aux O U B _ _ _ seq h

/-- Sample operand used for concrete generator runs. -/
def gammaOperand : Operand := ⟨"γ", 1⟩

/-- Sample unary operator used for concrete generator runs. -/
def idOp : UnaryOperator := ⟨"u", fun a => a⟩

theorem aux_generate_zero (O : List Operand) (U : List UnaryOperator)
    (B : List BinaryOperator) (cur : List Token) (stack : Nat) :
    aux_generate O U B 0 0 0 cur stack = if stack == 1 then [cur] else [] := by
  rw [aux_generate]
  simp

theorem aux_gen_one (U : List UnaryOperator) (B : List BinaryOperator) :
    aux_generate [gammaOperand] U B 1 0 0 [] 0 = [[Token.Operand gammaOperand]] := by
  rw [aux_generate]
  norm_num [aux_generate_zero]

theorem aux_gen_unary (B : List BinaryOperator) :
    aux_generate [gammaOperand] [idOp] B 0 1 0 [Token.Operand gammaOperand] 1
      = [[Token.Operand gammaOperand, Token.UnaryOperator idOp]] := by
  rw [aux_generate]
  norm_num [aux_generate_zero]

theorem aux_gen_one_one (B : List BinaryOperator) :
    aux_generate [gammaOperand] [idOp] B 1 1 0 [] 0
      = [[Token.Operand gammaOperand, Token.UnaryOperator idOp]] := by
  rw [aux_generate]
  norm_num [aux_gen_unary]

theorem gen_single_eval :
    generate_valid_tokens [gammaOperand] [] [] 1 = [[Token.Operand gammaOperand]] := by
  simp [generate_valid_tokens, generate_valid_tokens_with_depth, List.range_succ,
    aux_gen_one]

theorem genLib_depth_one_eval :
    generate_valid_tokens_with_depth_lib [gammaOperand] [idOp] [] 1
      = [[Token.Operand gammaOperand],
         [Token.Operand gammaOperand, Token.UnaryOperator idOp]] := by
  simp [generate_valid_tokens_with_depth_lib, List.range_succ, aux_gen_one,
    aux_gen_one_one]

/-- Witness for `generator_output_valid` at vocabulary `([γ], [], [])`,
`max_depth = 1`, where the produced stream is `[[γ]]`. -/
theorem generator_output_valid_witness :
    is_valid_rpn [Token.Operand gammaOperand] = true :=
  (generator_output_valid [gammaOperand] [] [] 1 [Token.Operand gammaOperand]).1
    (by rw [gen_single_eval]; exact List.mem_singleton.mpr rfl)

theorem depth_counts_main (O : List Operand) (U : List UnaryOperator)
    (B : List BinaryOperator) (d : Nat) (seq : List Token)
    (h : seq ∈ generate_valid_tokens_with_depth O U B d) :
    countOperand seq + countUnary seq = d
    ∧ countBinary seq = countOperand seq - 1 := by
  rw [generate_valid_tokens_with_depth] at h
  by_cases hd : d = 0
  · subst hd
    simp at h
  · rw [if_neg (by simpa using hd)] at h
    obtain ⟨u, hu, h⟩ := List.mem_flatMap.mp h
    rw [List.mem_range] at hu
    obtain ⟨c1, c2, c3, -⟩ :=
      aux_generate_spec O U B (d + d + d) (d - u) u (d - u - 1) [] 0
        (by omega) seq h
    rw [show countOperand ([] : List Token) = 0 from rfl] at c1
    rw [show countUnary ([] : List Token) = 0 from rfl] at c2
    rw [show countBinary ([] : List Token) = 0 from rfl] at c3
    omega

/-- C3: the claimed depth decomposition — `operand_count + unary_count = d` and
`binary_count = operand_count − 1` — holds of every sequence produced by the
`main.rs` `generate_valid_tokens_with_depth` at depth `d`, but the
`generator.rs` variant violates it: at depth 1 over the vocabulary
`([γ], [u], [])` it yields `[γ, u]`, whose operand count plus unary count
is 2, not 1. -/
theorem depth_token_counts :
    ([Token.Operand gammaOperand, Token.UnaryOperator idOp]
        ∈ generate_valid_tokens_with_depth_lib [gammaOperand] [idOp] [] 1
      ∧ countOperand [Token.Operand gammaOperand, Token.UnaryOperator idOp]
        + countUnary [Token.Operand gammaOperand, Token.UnaryOperator idOp] = 2)
    ∧ (∀ (O : List Operand) (U : List UnaryOperator) (B : List BinaryOperator)
        (d : Nat) (seq : List Token),
        seq ∈ generate_valid_tokens_with_depth O U B d →
          countOperand seq + countUnary seq = d
          ∧ countBinary seq = countOperand seq - 1) := by
  refine ⟨⟨?_, by decide⟩, depth_counts_main⟩
  rw [genLib_depth_one_eval]
  simp

/-- Witness for `depth_token_counts` at the `main.rs` generator run over
vocabulary `([γ], [], [])` and depth 1, whose sole output is `[γ]`. -/
theorem depth_token_counts_witness :
    countOperand [Token.Operand gammaOperand]
      + countUnary [Token.Operand gammaOperand] = 1
    ∧ countBinary [Token.Operand gammaOperand]
      = countOperand [Token.Operand gammaOperand] - 1 :=
  depth_token_counts.2 [gammaOperand] [] [] 1 [Token.Operand gammaOperand]
    (by
      simp [generate_valid_tokens_with_depth, List.range_succ, aux_gen_one])

/-- Embeds `chunk_par.rs` `Chunks::next` as a function on whole streams: one
`next` call pulls up to `chunk_size` items off the iterator (the `take`),
leaves the rest (the `drop`), and returns `None` when the pulled chunk is
empty — which happens when the input is exhausted or when `chunk_size = 0`
(the `for _ in 0..self.chunk_size` loop then runs zero times). -/
def chunksN {α : Type} (chunk_size : Nat) (l : List α) : List (List α) :=
  if _h : chunk_size = 0 then []
  else if h2 : l.isEmpty = true then []
  else l.take chunk_size :: chunksN chunk_size (l.drop chunk_size)
termination_by l.length
decreasing_by
  have h3 : l ≠ [] := by
    intro hnil
    rw [hnil] at h2
    simp at h2
  have h4 : 0 < l.length := List.length_pos.mpr h3
  simp only [List.length_drop]
  omega

theorem chunksN_zero_eq {α : Type} (l : List α) : chunksN 0 l = [] := by
  rw [chunksN]
  simp

theorem chunksN_flatten {α : Type} (c : Nat) (hc : 0 < c) :
    ∀ (n : Nat) (l : List α), l.length ≤ n → (chunksN c l).flatten = l := by
  intro n
  induction n with
  | zero =>
    intro l hl
    have hnil : l = [] := by
      cases l with
      | nil => rfl
      | cons x xs => simp at hl
    subst hnil
    rw [chunksN, dif_neg (by omega)]
    simp
  | succ n ih =>
    intro l hl
    rw [chunksN, dif_neg (by omega)]
    by_cases he : l.isEmpty = true
    · rw [dif_pos he]
      simp [List.isEmpty_iff.mp he]
    · rw [dif_neg he]
      have h3 : l ≠ [] := by
        intro hnil
        rw [hnil] at he
        simp at he
      have h4 : 0 < l.length := List.length_pos.mpr h3
      rw [List.flatten_cons]
      rw [ih (l.drop c) (by simp only [List.length_drop]; omega)]
      exact List.take_append_drop c l

theorem chunksN_filter_flatten {α : Type} (c : Nat) (hc : 0 < c) (p : α → Bool) :
    ∀ (n : Nat) (l : List α), l.length ≤ n →
      ((chunksN c l).map (List.filter p)).flatten = l.filter p := by
  intro n
  induction n with
  | zero =>
    intro l hl
    have hnil : l = [] := by
      cases l with
      | nil => rfl
      | cons x xs => simp at hl
    subst hnil
    rw [chunksN, dif_neg (by omega)]
    simp
  | succ n ih =>
    intro l hl
    rw [chunksN, dif_neg (by omega)]
    by_cases he : l.isEmpty = true
    · rw [dif_pos he]
      simp [List.isEmpty_iff.mp he]
    · rw [dif_neg he]
      have h3 : l ≠ [] := by
        intro hnil
        rw [hnil] at he
        simp at he
      have h4 : 0 < l.length := List.length_pos.mpr h3
      rw [List.map_cons, List.flatten_cons]
      rw [ih (l.drop c) (by simp only [List.length_drop]; omega)]
      conv_rhs => rw [← List.take_append_drop c l]
      rw [List.filter_append]

/-- C5: for every positive `chunk_size`, concatenating the chunks produced by
`chunks_n` in emission order reproduces the input stream exactly — nothing is
dropped, duplicated, or reordered. -/
theorem chunks_concat_id :
    ∀ (α : Type) (c : Nat), 0 < c → ∀ l : List α, (chunksN c l).flatten = l :=
  fun α c hc l => chunksN_flatten c hc l.length l (le_refl _)

/-- Witness for `chunks_concat_id` at `chunk_size = 2` on `[1, 2, 3]`. -/
theorem chunks_concat_id_witness : (chunksN 2 [1, 2, 3]).flatten = [1, 2, 3] :=
  chunks_concat_id Nat 2 (by decide) [1, 2, 3]

/-- C10: with `chunk_size = 0` the chunk iterator yields no chunks at all —
its first `next` already returns `None` — so every input stream, including
non-empty ones, is silently dropped. -/
theorem chunks_zero_drops_all :
    (∀ (α : Type) (l : List α), chunksN 0 l = [])
    ∧ chunksN 0 [1, 2, 3] = ([] : List (List Nat)) :=
  ⟨fun α l => chunksN_zero_eq l, chunksN_zero_eq [1, 2, 3]⟩

/-- Embeds the `main.rs` worker filter
`(calculate(&tokens) - args.target).abs() < args.tolerance` applied to a
candidate sequence (every candidate reaching it comes from the generator and
is valid, so the `Except.error` branch is unreachable there and mapped to
`false`). -/
def matchFilter (target tolerance : ℚ) (tokens : List Token) : Bool :=
  match calculate tokens with
  | Except.ok v => decide (|v - target| < tolerance)
  | Except.error _ => false

/-- C6 (amended to positive chunk sizes): for every positive `chunk_size`, the
chunked pipeline — filter each chunk with the target/tolerance test, then
concatenate the per-chunk results — emits exactly the sequences of a
single-threaded unchunked filter over the full generated stream; the match
set is therefore independent of the chunk size.  Worker-pool size has no
counterpart in this embedding: the filter is a pure per-candidate predicate,
so partitioning work among workers cannot change the match set. -/
theorem chunked_filter_eq :
    ∀ (c : Nat), 0 < c → ∀ (target tolerance : ℚ) (O : List Operand)
      (U : List UnaryOperator) (B : List BinaryOperator) (max_depth : Nat),
      ((chunksN c (generate_valid_tokens O U B max_depth)).map
          (List.filter (matchFilter target tolerance))).flatten
        = (generate_valid_tokens O U B max_depth).filter
            (matchFilter target tolerance) :=
  fun c hc target tolerance O U B max_depth =>
    chunksN_filter_flatten c hc (matchFilter target tolerance) _ _ (le_refl _)

/-- Witness for `chunked_filter_eq` at `chunk_size = 1` on the vocabulary
`([γ], [], [])` with `max_depth = 1`. -/
theorem chunked_filter_eq_witness :
    ((chunksN 1 (generate_valid_tokens [gammaOperand] [] [] 1)).map
        (List.filter (matchFilter 1 1))).flatten
      = (generate_valid_tokens [gammaOperand] [] [] 1).filter (matchFilter 1 1) :=
  chunked_filter_eq 1 (by decide) 1 1 [gammaOperand] [] [] 1

/-- Counterexample to C6 as stated: at `chunk_size = 0` the chunked pipeline
emits no matches at all, while the unchunked single-threaded run over the same
stream (vocabulary `([γ], [], [])`, depth 1, target 1, tolerance 1) reports
the match `[γ]`; so the match set is not independent of arbitrary chunk
sizes. -/
theorem chunked_filter_zero_counterexample :
    ((chunksN 0 (generate_valid_tokens [gammaOperand] [] [] 1)).map
        (List.filter (matchFilter 1 1))).flatten
      ≠ (generate_valid_tokens [gammaOperand] [] [] 1).filter (matchFilter 1 1) := by
  rw [gen_single_eval, chunksN_zero_eq]
  have hf : matchFilter 1 1 [Token.Operand gammaOperand] = true := by
    rw [matchFilter]
    rw [show calculate [Token.Operand gammaOperand] = Except.ok 1 from rfl]
    norm_num
  simp [hf]

/-- Fragment of IEEE-754 `f64` needed for the NaN claim: `none` is NaN, and
`some q` is a finite value.  Subtraction and absolute value propagate NaN;
every ordered comparison involving NaN is false. -/
def F : Type := Option ℚ

/-- The NaN value of the `F` model. -/
def fNaN : F := Option.none

/-- IEEE-754 subtraction on the `F` model: NaN propagates. -/
def fSub : F → F → F
  | Option.some a, Option.some b => Option.some (a - b)
  | _, _ => Option.none

/-- IEEE-754 absolute value on the `F` model: NaN propagates. -/
def fAbs : F → F
  | Option.some a => Option.some |a|
  | Option.none => Option.none

/-- IEEE-754 `<` on the `F` model: any comparison with NaN is false. -/
def fLt : F → F → Bool
  | Option.some a, Option.some b => decide (a < b)
  | _, _ => false

/-- The `main.rs` tolerance filter `(value - target).abs() < tolerance` at the
level of evaluated values, over the NaN-aware value model `F`. -/
def toleranceFilter (value target tolerance : F) : Bool :=
  fLt (fAbs (fSub value target)) tolerance

/-- C8: a NaN candidate value never passes the tolerance filter, for every
target and every tolerance (finite or NaN): `abs(NaN - target) < tolerance`
evaluates to false, totally — and hence NaN-valued candidates never appear
among the filtered matches. -/
theorem nan_never_matches :
    (∀ target tolerance : F, toleranceFilter fNaN target tolerance = false)
    ∧ (∀ (target tolerance : F) (values : List F),
        fNaN ∉ values.filter (fun v => toleranceFilter v target tolerance)) := by
  have h1 : ∀ target tolerance : F, toleranceFilter fNaN target tolerance = false := by
    intro t tol
    cases t <;> cases tol <;> rfl
  refine ⟨h1, ?_⟩
  intro t tol values hmem
  rw [List.mem_filter] at hmem
  have h2 := hmem.2
  rw [h1] at h2
  exact absurd h2 (by simp)

/-- Witness for `nan_never_matches` at the finite target 1 and tolerance 1. -/
theorem nan_never_matches_witness :
    toleranceFilter fNaN (Option.some 1) (Option.some 1) = false :=
  nan_never_matches.1 (Option.some 1) (Option.some 1)

/-- Embeds the `clap` attribute `#[arg(short = 'c', long, default_value_t = 2 ^ 16)]`
on `chunk_size` in `cli.rs` and `main.rs`.  In Rust, `^` on integers is
bitwise XOR, not exponentiation, so the expression evaluates to `2 XOR 16`. -/
def chunk_size_default : Nat := 2 ^^^ 16

/-- C9 is false of the code: the default `chunk_size` is `2 XOR 16 = 18`,
which is not in the tens of thousands (the spec's "tens of thousands" shows
the intent was `2^16 = 65536`). -/
theorem chunk_size_default_is_18 :
    chunk_size_default = 18 ∧ chunk_size_default < 10000 := by decide

end TfSolver
